import Mathlib

/-!
Verification of the hpcbench campaign driver (src/hpcbench/driver.py and
src/hpcbench/api.py): a shallow embedding of the checkpoint-writing wrapper,
the generic tree-node enumerator, the host/tag selector, the category-node
execution modes, the execution unit, metrics validation and metrics
aggregation, together with theorems settling the specification claims.
-/

set_option autoImplicit false

namespace HPCBench

/-- Values appearing in the per-node YAML report documents (strings, ints,
booleans, lists and nested mappings), mirroring the shapes the driver
actually stores. -/
inductive Val where
  | s (x : String)
  | i (n : Int)
  | b (x : Bool)
  | list (xs : List Val)
  | dict (entries : List (String × Val))

/-- A YAML mapping, modelled as an insertion-ordered association list, the
observable behaviour of a Python `dict`. -/
abbrev Doc := List (String × Val)

/-- Lookup of a key in an insertion-ordered mapping (`d[k]` / `d.get(k)`). -/
def alookup {α : Type} : List (String × α) → String → Option α
  | [], _ => none
  | (k, v) :: rest, k' => if k = k' then some v else alookup rest k'

/-- `d[k] = v` on a Python dict: replace the value in place when the key is
present (keeping its position), append the pair otherwise. -/
def dset : Doc → String → Val → Doc
  | [], k, v => [(k, v)]
  | (k', v') :: rest, k, v =>
    if k' = k then (k, v) :: rest else (k', v') :: dset rest k v

/-- `d.pop(k, None)`: remove the key from the mapping. -/
def dpop (d : Doc) (k : String) : Doc :=
  d.filter (fun kv => kv.1 ≠ k)

/-- `d.get(k)` returning an `Option`. -/
def dget (d : Doc) (k : String) : Option Val :=
  alookup d k

/-- `d1.update(d2)`: apply every assignment of `d2`, in order, to `d1`. -/
def dictUpdate (d1 d2 : Doc) : Doc :=
  d2.foldl (fun acc kv => dset acc kv.1 kv.2) d1

theorem dget_dset_self (d : Doc) (k : String) (v : Val) :
    dget (dset d k v) k = some v := by
  induction d with
  | nil => simp [dget, dset, alookup]
  | cons kv rest ih =>
    obtain ⟨k1, v1⟩ := kv
    by_cases h : k1 = k
    · simp [dget, dset, alookup, h]
    · simpa [dget, dset, alookup, h] using ih

theorem dget_dset_ne (d : Doc) (k k' : String) (v : Val) (h : k' ≠ k) :
    dget (dset d k v) k' = dget d k' := by
  have h' : ¬k = k' := Ne.symm h
  induction d with
  | nil => simp [dget, dset, alookup, h']
  | cons kv rest ih =>
    obtain ⟨k1, v1⟩ := kv
    by_cases hk : k1 = k
    · subst hk
      simp [dget, dset, alookup, h']
    · by_cases hk' : k1 = k'
      · simp [dget, dset, alookup, hk, hk', h, h']
      · simpa [dget, dset, alookup, hk, hk'] using ih

theorem dget_dpop_self (d : Doc) (k : String) :
    dget (dpop d k) k = none := by
  induction d with
  | nil => rfl
  | cons kv rest ih =>
    obtain ⟨k1, v1⟩ := kv
    by_cases h : k1 = k
    · simpa [dget, dpop, List.filter_cons, h] using ih
    · simpa [dget, dpop, List.filter_cons, alookup, h] using ih

theorem dget_dpop_ne (d : Doc) (k k' : String) (h : k' ≠ k) :
    dget (dpop d k) k' = dget d k' := by
  have h' : ¬k = k' := Ne.symm h
  induction d with
  | nil => rfl
  | cons kv rest ih =>
    obtain ⟨k1, v1⟩ := kv
    by_cases hk : k1 = k
    · have hne : ¬k1 = k' := by
        intro hh
        exact h (hh ▸ hk)
      simpa [dget, dpop, List.filter_cons, alookup, hk, hne, h, h'] using ih
    · by_cases hk' : k1 = k'
      · simp [dget, dpop, List.filter_cons, alookup, hk, hk', h, h']
      · simpa [dget, dpop, List.filter_cons, alookup, hk, hk'] using ih

theorem alookup_eq_none {α : Type} (d : List (String × α)) (k : String)
    (h : k ∉ d.map Prod.fst) : alookup d k = none := by
  induction d with
  | nil => rfl
  | cons kv rest ih =>
    obtain ⟨k1, v1⟩ := kv
    simp only [List.map_cons, List.mem_cons] at h
    push_neg at h
    simp [alookup, Ne.symm h.1, ih h.2]

/-- The update of a duplicate-free mapping `d2` into `d1` answers lookups
from `d2` first, falling back to `d1` (Python `dict.update` semantics). -/
theorem dget_dictUpdate (d1 d2 : Doc) (k : String)
    (hnd : (d2.map Prod.fst).Nodup) :
    dget (dictUpdate d1 d2) k =
      match dget d2 k with
      | some v => some v
      | none => dget d1 k := by
  induction d2 generalizing d1 with
  | nil => simp [dictUpdate, dget, alookup]
  | cons kv rest ih =>
    obtain ⟨k1, v1⟩ := kv
    have hfacts : k1 ∉ rest.map Prod.fst ∧ (rest.map Prod.fst).Nodup := by
      have hh := hnd
      simp only [List.map_cons, List.nodup_cons] at hh
      exact hh
    have hk1 : k1 ∉ rest.map Prod.fst := hfacts.1
    have hnd' : (rest.map Prod.fst).Nodup := hfacts.2
    have hstep : dictUpdate d1 ((k1, v1) :: rest) = dictUpdate (dset d1 k1 v1) rest := by
      simp [dictUpdate]
    rw [hstep, ih _ hnd']
    by_cases hk : k1 = k
    · subst hk
      have hnone : alookup rest k1 = none := alookup_eq_none rest k1 hk1
      have hself : alookup (dset d1 k1 v1) k1 = some v1 := dget_dset_self d1 k1 v1
      simp [dget, alookup, hnone, hself]
    · cases hrest : alookup rest k with
      | some v => simp [dget, alookup, hk, hrest]
      | none =>
        have hne : alookup (dset d1 k1 v1) k = alookup d1 k :=
          dget_dset_ne d1 k1 k v1 (Ne.symm hk)
        simp [dget, alookup, hk, hrest, hne]

/-! ## The checkpoint-writing wrapper (driver.py, `write_yaml_report`) -/

/-- Result of a decorated node function, before post-processing: a
list/generator of children, a mapping, or any other shape.  Every call site
of the decorated functions yields strings (host names, tags, run
directories), on which Python `str` is the identity, so the sequence
branch carries strings directly. -/
inductive FuncResult where
  | seq (children : List String)
  | map (d : Doc)
  | other (typeName : String)

/-- The keyword-argument set a node invocation receives, modelled by the
list of keyword names present (the wrapper and the drivers only test key
membership: `no_exec`, `plot`). -/
abbrev Kwargs := List String

/-- `write_yaml_report` (driver.py lines 39-59): wrap a sequence result as a
`children` mapping with elements converted to strings, keep a mapping
result as-is, fail on any other shape; then set `elapsed` and `date` and
write the report to `hpcbench.yaml` unless `no_exec` is among the keyword
arguments.  The returned Bool records whether the file write happened. -/
def write_yaml_report (kwargs : Kwargs) (elapsed date : Val) (data : FuncResult) :
    Except String (Doc × Bool) :=
  let finish : Doc → Doc × Bool := fun d =>
    (dset (dset d "elapsed" elapsed) "date" date, !(kwargs.contains "no_exec"))
  match data with
  | .seq xs => .ok (finish [("children", Val.list (xs.map Val.s))])
  | .map d => .ok (finish d)
  | .other ty => .error ("Unexpected data type: " ++ ty)

/-- C8: the checkpoint-writing wrapper wraps a sequence result as a
`children` document (elements embedded as strings), keeps a mapping result
as-is apart from the injected keys, fails on any other result shape, and in
the non-error cases sets the `elapsed` and `date` keys of the produced
document before it is written or returned. -/
theorem c8_write_yaml_report_shapes (kwargs : Kwargs) (elapsed date : Val)
    (xs : List String) (d : Doc) (ty : String) :
    (∃ w, write_yaml_report kwargs elapsed date (.seq xs) =
        .ok (dset (dset [("children", Val.list (xs.map Val.s))] "elapsed" elapsed)
              "date" date, w)) ∧
    (∃ w, write_yaml_report kwargs elapsed date (.map d) =
        .ok (dset (dset d "elapsed" elapsed) "date" date, w)) ∧
    dget (dset (dset d "elapsed" elapsed) "date" date) "elapsed" = some elapsed ∧
    dget (dset (dset d "elapsed" elapsed) "date" date) "date" = some date ∧
    (∀ k, k ≠ "elapsed" → k ≠ "date" →
      dget (dset (dset d "elapsed" elapsed) "date" date) k = dget d k) ∧
    dget (dset (dset [("children", Val.list (xs.map Val.s))] "elapsed" elapsed)
        "date" date) "children" = some (Val.list (xs.map Val.s)) ∧
    write_yaml_report kwargs elapsed date (.other ty) =
      .error ("Unexpected data type: " ++ ty) := by
  refine ⟨⟨_, rfl⟩, ⟨_, rfl⟩, ?_, ?_, ?_, ?_, rfl⟩
  · rw [dget_dset_ne (dset d "elapsed" elapsed) "date" "elapsed" date (by decide),
      dget_dset_self d "elapsed" elapsed]
  · rw [dget_dset_self]
  · intro k h1 h2
    rw [dget_dset_ne (dset d "elapsed" elapsed) "date" k date h2,
      dget_dset_ne d "elapsed" k elapsed h1]
  · rw [dget_dset_ne _ "date" "children" date (by decide),
      dget_dset_ne _ "elapsed" "children" elapsed (by decide)]
    simp [dget, alookup]

/-- Witness for C8 at a concrete input. -/
theorem c8_write_yaml_report_shapes_witness :
    ("exit_status" : String) ≠ "elapsed" ∧ ("exit_status" : String) ≠ "date" ∧
    dget (dset (dset [("exit_status", Val.i 0)] "elapsed" (Val.i 1)) "date" (Val.s "d"))
        "exit_status" = dget [("exit_status", Val.i 0)] "exit_status" :=
  ⟨by decide, by decide,
    (c8_write_yaml_report_shapes [] (Val.i 1) (Val.s "d") [] [("exit_status", Val.i 0)]
      "int").2.2.2.2.1 "exit_status" (by decide) (by decide)⟩

/-- C2 (code divergence): the wrapper skips the checkpoint write whenever
`no_exec` is among the keyword arguments.  Since RE-EXTRACT mode is
selected precisely by passing `no_exec` (without `plot`), a Category-node
invocation in RE-EXTRACT mode never writes a checkpoint document: the
suppression is inferred from the mode-selection flag itself. -/
theorem c2_reextract_mode_skips_checkpoint_write :
    (∀ kwargs elapsed date data doc,
      kwargs.contains "no_exec" = true →
      write_yaml_report kwargs elapsed date data = .ok doc → doc.2 = false) ∧
    write_yaml_report ["no_exec"] (Val.i 0) (Val.s "d") (.map [("category", Val.s "c")]) =
      .ok ([("category", Val.s "c"), ("elapsed", Val.i 0), ("date", Val.s "d")], false) := by
  constructor
  · intro kwargs elapsed date data doc hmem hdoc
    cases data with
    | seq xs =>
      simp only [write_yaml_report, Except.ok.injEq] at hdoc
      subst hdoc
      simpa using hmem
    | map d =>
      simp only [write_yaml_report, Except.ok.injEq] at hdoc
      subst hdoc
      simpa using hmem
    | other ty =>
      simp [write_yaml_report] at hdoc
  · rfl

/-- Witness for C2's universally quantified part at a concrete input. -/
theorem c2_reextract_mode_skips_checkpoint_write_witness :
    (false = false) ∧ (["no_exec"] : List String).contains "no_exec" = true := by
  refine ⟨?_, by decide⟩
  exact c2_reextract_mode_skips_checkpoint_write.1 ["no_exec"] (Val.i 0) (Val.s "d")
    (.map [("category", Val.s "c")])
    ([("category", Val.s "c"), ("elapsed", Val.i 0), ("date", Val.s "d")], false)
    (by decide) c2_reextract_mode_skips_checkpoint_write.2

/-! ## The generic tree node (driver.py, `Enumerator`) -/

/-- The filesystem-visible state of one campaign node: the checkpoint file
content (`report.children` when `hpcbench.yaml` exists in the node's
directory) and the freshly computed `children` property. -/
structure NodeState where
  checkpoint : Option (List String)
  fresh : List String

/-- `Enumerator._children` (driver.py lines 91-95): the checkpointed list
when a checkpoint file exists, the freshly computed children otherwise. -/
def effective_children (s : NodeState) : List String :=
  match s.checkpoint with
  | some cs => cs
  | none => s.fresh

/-- `Enumerator.__call__` (driver.py lines 83-89): invoke each child of
`_children` in order inside its directory and yield it; the yielded
sequence — which the wrapper records as the new `children` list — is
exactly `_children` in its order. -/
def enumeratorCall (s : NodeState) : List String :=
  effective_children s

/-- The node state after a completed invocation: the wrapper has persisted
the yielded children as the node's checkpoint. -/
def afterCall (s : NodeState) : NodeState :=
  { s with checkpoint := some (enumeratorCall s) }

/-! ## The execution matrix and the benchmark node (driver.py / api.py) -/

/-- One entry of a benchmark's execution matrix (api.py
`Benchmark.execution_matrix`): a category, an optional name (already
defaulted to the empty string, as `execution.get('name') or ''` does), the
command argument list, the `metas` context and an optional environment
override. -/
structure Entry where
  category : String
  name : String
  command : List String
  metas : List (String × String)
  environment : Option (List (String × String))

/-- `BenchmarkDriver.children` (driver.py lines 204-209): the set of
distinct categories appearing in the execution matrix. -/
def benchmarkChildren (matrix : List Entry) : Finset String :=
  matrix.foldl (fun acc e => insert e.category acc) ∅

theorem mem_benchmarkChildren_aux (matrix : List Entry) (acc : Finset String)
    (c : String) :
    c ∈ matrix.foldl (fun acc e => insert e.category acc) acc ↔
      c ∈ acc ∨ ∃ e ∈ matrix, Entry.category e = c := by
  induction matrix generalizing acc with
  | nil => simp
  | cons e rest ih =>
    simp only [List.foldl_cons, ih, Finset.mem_insert, List.mem_cons]
    constructor
    · rintro (h | h)
      · rcases h with h | h
        · exact Or.inr ⟨e, Or.inl rfl, h.symm⟩
        · exact Or.inl h
      · obtain ⟨e', he', hc⟩ := h
        exact Or.inr ⟨e', Or.inr he', hc⟩
    · rintro (h | h)
      · exact Or.inl (Or.inr h)
      · obtain ⟨e', he' | he', hc⟩ := h
        · subst he'
          exact Or.inl (Or.inl hc.symm)
        · exact Or.inr ⟨e', he', hc⟩

/-- C9 (amended to the nodes driven by the generic `Enumerator.__call__`):
`effective_children` returns the checkpointed list when a checkpoint
exists and the fresh children otherwise; the generic invocation visits
children exactly in that order; re-running a checkpointed node reproduces
the recorded children in the recorded order whatever the freshly computed
children now are; and the Benchmark node's children are the distinct
categories of its execution matrix. -/
theorem c9_enumerator_children_frozen :
    (∀ cs f, effective_children ⟨some cs, f⟩ = cs) ∧
    (∀ f, effective_children ⟨none, f⟩ = f) ∧
    (∀ s, enumeratorCall s = effective_children s) ∧
    (∀ s f, enumeratorCall ⟨(afterCall s).checkpoint, f⟩ = enumeratorCall s) ∧
    (∀ matrix c, c ∈ benchmarkChildren matrix ↔
      ∃ e ∈ matrix, Entry.category e = c) := by
  refine ⟨fun cs f => rfl, fun f => rfl, fun s => rfl, fun s f => rfl, ?_⟩
  intro matrix c
  simpa using mem_benchmarkChildren_aux matrix ∅ c

/-! ## The execution unit and the category node
(driver.py, `ExecutionDriver`, `MetricsDriver` call sites,
`BenchmarkCategoryDriver.__call__`) -/

/-- `os.path.join` for the driver's uses: an empty first component yields
the second (as `osp.join('', u)` does); otherwise the components are
joined with a separator (first component not slash-terminated, second
component relative, the only shapes the driver produces). -/
def osPathJoin (a b : String) : String :=
  if a = "" then b else a ++ "/" ++ b

/-- External observable actions of one category-node invocation: spawning a
command (with the exit status the process will return) and running metrics
extraction inside a run directory. -/
inductive Event where
  | spawn (command : List String) (exitStatus : Int)
  | extract (runDir : String)
deriving DecidableEq

def Event.isSpawn : Event → Bool
  | .spawn _ _ => true
  | .extract _ => false

def Event.isExtract : Event → Bool
  | .spawn _ _ => false
  | .extract _ => true

/-- The EXECUTE loop of `BenchmarkCategoryDriver.__call__` (driver.py lines
254-275): for every matrix entry of this category, build a fresh run
directory `osp.join(name, uuid)` from the next generated uuid, spawn the
command there, run metrics extraction, and yield the run directory.  The
uuid generator and the exit statuses of the spawned processes are supplied
as functions of the run index. -/
def executeRuns (cat : String) (uuid : Nat → String) (exit : Nat → Int) :
    List Entry → Nat → List Event × List String
  | [], _ => ([], [])
  | e :: rest, i =>
    if e.category = cat then
      let rd := osPathJoin e.name (uuid i)
      let next := executeRuns cat uuid exit rest (i + 1)
      (Event.spawn e.command (exit i) :: Event.extract rd :: next.1, rd :: next.2)
    else executeRuns cat uuid exit rest i

/-- `BenchmarkCategoryDriver.__call__` (driver.py lines 252-289): without
`no_exec`, run the EXECUTE loop — the existing checkpoint is never
consulted; with `no_exec` and `plot`, only read-only plotting happens;
with `no_exec` alone (RE-EXTRACT), metrics extraction is re-run inside
every checkpointed child directory and no process is spawned.  The
generator body yields run directories only in the EXECUTE branch, so the
children list produced for the wrapper is empty in the other two modes.
Returns the produced events and the yielded children list. -/
def categoryCall (cat : String) (matrix : List Entry)
    (checkpointChildren : Option (List String)) (uuid : Nat → String)
    (exit : Nat → Int) (kwargs : Kwargs) : List Event × List String :=
  if kwargs.contains "no_exec" = false then
    executeRuns cat uuid exit matrix 0
  else if kwargs.contains "plot" then
    ([], [])
  else
    ((checkpointChildren.getD []).map Event.extract, [])

/-- `ExecutionDriver.__call__` result document (driver.py lines 397-401):
`dict(exit_status=..., benchmark=...)` updated with the entry's own
fields. -/
def entryDoc (e : Entry) : Doc :=
  [("category", Val.s e.category), ("name", Val.s e.name),
   ("command", Val.list (e.command.map Val.s)),
   ("metas", Val.dict (e.metas.map (fun kv => (kv.1, Val.s kv.2))))]
  ++ (match e.environment with
      | some env => [("environment", Val.dict (env.map (fun kv => (kv.1, Val.s kv.2))))]
      | none => [])

def executionDriverReport (benchmarkName : String) (e : Entry) (exitStatus : Int) :
    Doc :=
  dictUpdate [("exit_status", Val.i exitStatus), ("benchmark", Val.s benchmarkName)]
    (entryDoc e)

/-- C9 counterexample: the claim quantifies over every node, but the
Category node invoked in EXECUTE mode on a directory whose checkpoint
records children `["uuid-1"]` does not reproduce them: with the next
generated uuid being `uuid-2` it yields `["uuid-2"]`, a different
children list than `effective_children` of that state. -/
theorem c9_category_node_breaks_frozen_order :
    categoryCall "cat" [⟨"cat", "", ["run.sh"], [], none⟩] (some ["uuid-1"])
        (fun _ => "uuid-2") (fun _ => 0) [] =
      ([Event.spawn ["run.sh"] 0, Event.extract "uuid-2"], ["uuid-2"]) ∧
    effective_children ⟨some ["uuid-1"], []⟩ = ["uuid-1"] ∧
    (["uuid-2"] : List String) ≠ ["uuid-1"] :=
  ⟨rfl, rfl, by decide⟩

/-- C1 (code divergence): the EXECUTE branch of the Category node ignores
the existing checkpoint entirely — its result is the same whatever the
checkpoint holds — and invoking it a second time against a directory whose
checkpoint tree is complete spawns the command again and records a
children list built from freshly generated uuids, not the checkpointed
one. -/
theorem c1_execute_respawns_on_checkpointed_directory :
    (∀ cat matrix ck ck' uuid exit,
      categoryCall cat matrix ck uuid exit [] =
        categoryCall cat matrix ck' uuid exit []) ∧
    categoryCall "cat" [⟨"cat", "", ["run.sh"], [], none⟩] (some ["uuid-1"])
        (fun _ => "uuid-2") (fun _ => 0) [] =
      ([Event.spawn ["run.sh"] 0, Event.extract "uuid-2"], ["uuid-2"]) ∧
    ((([Event.spawn ["run.sh"] 0, Event.extract "uuid-2"] : List Event).any
        Event.isSpawn) = true) ∧
    (["uuid-2"] : List String) ≠ ["uuid-1"] := by
  refine ⟨fun cat matrix ck ck' uuid exit => rfl, rfl, by decide, by decide⟩

theorem executeRuns_counts (cat : String) (uuid : Nat → String) (exit : Nat → Int)
    (matrix : List Entry) (i : Nat) :
    ((executeRuns cat uuid exit matrix i).1.countP Event.isSpawn =
      (matrix.filter (fun e => e.category = cat)).length) ∧
    ((executeRuns cat uuid exit matrix i).1.countP Event.isExtract =
      (matrix.filter (fun e => e.category = cat)).length) ∧
    ((executeRuns cat uuid exit matrix i).2.length =
      (matrix.filter (fun e => e.category = cat)).length) := by
  induction matrix generalizing i with
  | nil => simp [executeRuns]
  | cons e rest ih =>
    by_cases h : e.category = cat
    · simp only [executeRuns, h, if_pos rfl, List.filter_cons, if_true]
      refine ⟨?_, ?_, ?_⟩
      · simpa [List.countP_cons, Event.isSpawn, Event.isExtract, h] using
          (ih (i + 1)).1
      · simpa [List.countP_cons, Event.isSpawn, Event.isExtract, h] using
          (ih (i + 1)).2.1
      · simpa [h] using (ih (i + 1)).2.2
    · simpa [executeRuns, h, List.filter_cons] using ih i

/-- C7: a non-zero exit status of a spawned command is recorded in the
run's result document under `exit_status` and never raised: whatever exit
statuses the processes return, the EXECUTE loop performs exactly one
metrics extraction per spawned command (extraction and aggregation
proceed for every run). -/
theorem c7_exit_status_recorded_not_fatal :
    (∀ benchmarkName e exitStatus,
      dget (executionDriverReport benchmarkName e exitStatus) "exit_status" =
        some (Val.i exitStatus)) ∧
    (∀ cat uuid exit matrix i,
      ((executeRuns cat uuid exit matrix i).1.countP Event.isExtract =
        (executeRuns cat uuid exit matrix i).1.countP Event.isSpawn)) := by
  constructor
  · intro b e x
    have hnone : dget (entryDoc e) "exit_status" = none := by
      cases he : e.environment <;>
        simp [entryDoc, dget, alookup, he]
    have hnd : ((entryDoc e).map Prod.fst).Nodup := by
      cases he : e.environment <;> simp [entryDoc, he]
    rw [executionDriverReport, dget_dictUpdate _ _ _ hnd, hnone]
    simp [dget, alookup]
  · intro cat uuid exit matrix i
    rw [(executeRuns_counts cat uuid exit matrix i).1,
      (executeRuns_counts cat uuid exit matrix i).2.1]

/-- Substitution of every occurrence of the `\x7boutdir\x7d` placeholder in
one command argument.  Modelled from the spec: the spec (and the api.py
docstring of `execution_matrix`) states that any occurrence of the
placeholder in the command field is substituted with the run's output
directory before the command is spawned; driver.py contains no code
performing this substitution, so the substitution the claim describes is
reconstructed here from the spec's words for comparison. -/
def replaceOD (out : List Char) : List Char → List Char
  | '{' :: 'o' :: 'u' :: 't' :: 'd' :: 'i' :: 'r' :: '}' :: rest =>
    out ++ replaceOD out rest
  | c :: rest => c :: replaceOD out rest
  | [] => []

def substOutdir (outdir arg : String) : String :=
  ⟨replaceOD outdir.toList arg.toList⟩

/-- C3 (code divergence): the EXECUTE loop spawns the command argument
list verbatim — the `\x7boutdir\x7d` placeholder reaches the spawned process
unresolved, while the substitution the spec describes would have changed
it. -/
theorem c3_outdir_placeholder_not_substituted :
    categoryCall "cat" [⟨"cat", "", ["cat", "\x7boutdir\x7d/stdout.txt"], [], none⟩]
        none (fun _ => "u0") (fun _ => 0) [] =
      ([Event.spawn ["cat", "\x7boutdir\x7d/stdout.txt"] 0, Event.extract "u0"],
        ["u0"]) ∧
    (["cat", "\x7boutdir\x7d/stdout.txt"] : List String).map
        (substOutdir "/camp/host/tag/bench/cat/u0") =
      ["cat", "/camp/host/tag/bench/cat/u0/stdout.txt"] ∧
    (["cat", "\x7boutdir\x7d/stdout.txt"] : List String) ≠
      ["cat", "/camp/host/tag/bench/cat/u0/stdout.txt"] := by
  refine ⟨rfl, ?_, by decide⟩
  rfl

/-! ## The host/tag selector (driver.py, `HostDriver.children`) -/

/-- One item of a tag-association config mapping: a `match` rule carrying a
compiled pattern (modelled by its matching predicate on strings), a
`nodes` rule carrying a set of hostnames, or any other association mode
(which the driver rejects). -/
inductive TagRule where
  | rmatch (pat : String → Bool)
  | rnodes (ns : List String)
  | rother (mode : String)

/-- One config of a tag: the items of the config mapping, in iteration
order. -/
abbrev TagConfig := List TagRule

/-- The mode loop of `HostDriver.children` (driver.py lines 158-171) over
one config: a `match` rule selects the tag when its pattern matches any of
the host's aliases, and the loop continues with the remaining items (the
inner `break` only leaves the alias loop); a `nodes` rule selects the tag
and leaves the mode loop when the rule's hostname set intersects the
aliases; an unknown mode raises.  Returns whether the tag was selected. -/
def processConfig (hostnames : List String) : TagConfig → Except String Bool
  | [] => .ok false
  | .rmatch pat :: rest =>
    if hostnames.any pat then
      match processConfig hostnames rest with
      | .ok _ => .ok true
      | .error msg => .error msg
    else processConfig hostnames rest
  | .rnodes ns :: rest =>
    if hostnames.any (fun h => ns.contains h) then .ok true
    else processConfig hostnames rest
  | .rother mode :: _ =>
    .error ("Unknown tag association pattern: " ++ mode)

/-- The config loop of `HostDriver.children` for one tag: configs are
evaluated in order and evaluation stops at the first config that selected
the tag (`if tag in benchmarks: break`). -/
def tagSelected (hostnames : List String) : List TagConfig → Except String Bool
  | [] => .ok false
  | c :: cs =>
    match processConfig hostnames c with
    | .error msg => .error msg
    | .ok true => .ok true
    | .ok false => tagSelected hostnames cs

/-- The tag loop of `HostDriver.children`, accumulating selected tags onto
the already-selected ones. -/
def hostChildrenAux (hostnames : List String) (acc : List String) :
    List (String × List TagConfig) → Except String (List String)
  | [] => .ok acc
  | (tag, configs) :: rest =>
    match tagSelected hostnames configs with
    | .error msg => .error msg
    | .ok true => hostChildrenAux hostnames (acc ++ [tag]) rest
    | .ok false => hostChildrenAux hostnames acc rest

/-- `HostDriver.children` (driver.py lines 152-174): the host's aliases are
`localhost` and its hostname; the result starts from the wildcard tag `*`
and adds every tag one of whose configs selects the host. -/
def hostChildren (hostname : String) (tags : List (String × List TagConfig)) :
    Except String (List String) :=
  hostChildrenAux ["localhost", hostname] ["*"] tags

theorem hostChildrenAux_append (hostnames : List String) (acc : List String)
    (tags : List (String × List TagConfig)) (res : List String)
    (h : hostChildrenAux hostnames acc tags = .ok res) :
    ∃ suffix, res = acc ++ suffix := by
  induction tags generalizing acc with
  | nil =>
    refine ⟨[], ?_⟩
    simp only [hostChildrenAux, Except.ok.injEq] at h
    simp [h.symm]
  | cons tc rest ih =>
    obtain ⟨tag, configs⟩ := tc
    simp only [hostChildrenAux] at h
    cases hsel : tagSelected hostnames configs with
    | error msg => rw [hsel] at h; exact absurd h (by simp)
    | ok b =>
      cases b with
      | true =>
        rw [hsel] at h
        obtain ⟨suffix, hs⟩ := ih (acc ++ [tag]) h
        exact ⟨tag :: suffix, by simp [hs]⟩
      | false =>
        rw [hsel] at h
        exact ih acc h

/-- The regex `^web.*` under Python `re.match`: it matches a string exactly
when the string starts with `web`. -/
def webPattern (s : String) : Bool :=
  match s.toList with
  | 'w' :: 'e' :: 'b' :: _ => true
  | _ => false

/-- C4: the selector's result always contains the wildcard tag (in fact
heads the accumulated list); a tag with a single `match` rule is selected
iff the pattern matches the hostname or the alias `localhost`; a tag with
a single `nodes` rule is selected iff the rule's hostname set meets those
aliases; and at the claim's concrete inputs, `^web.*` for tag `web` on
host `web-01` yields the tags `*` and `web`, while nodes `db-01` for tag
`db` on host `web-01` yields `*` only. -/
theorem c4_host_tag_selector :
    (∀ hostname tags res, hostChildren hostname tags = .ok res →
      ∃ suffix, res = "*" :: suffix) ∧
    (∀ hostname tag pat,
      hostChildren hostname [(tag, [[TagRule.rmatch pat]])] =
        .ok (if pat "localhost" || pat hostname then ["*", tag] else ["*"])) ∧
    (∀ hostname tag ns,
      hostChildren hostname [(tag, [[TagRule.rnodes ns]])] =
        .ok (if ns.contains "localhost" || ns.contains hostname
          then ["*", tag] else ["*"])) ∧
    hostChildren "web-01" [("web", [[TagRule.rmatch webPattern]])] =
      .ok ["*", "web"] ∧
    hostChildren "web-01" [("db", [[TagRule.rnodes ["db-01"]]])] = .ok ["*"] := by
  refine ⟨?_, ?_, ?_, ?_, ?_⟩
  case refine_4 =>
    simp [hostChildren, hostChildrenAux, tagSelected, processConfig, webPattern]
  case refine_5 =>
    simp [hostChildren, hostChildrenAux, tagSelected, processConfig]
  · intro hostname tags res h
    simpa using hostChildrenAux_append _ _ _ _ h
  · intro hostname tag pat
    by_cases h : pat "localhost" || pat hostname
    · have hany : (["localhost", hostname] : List String).any pat = true := by
        simpa [List.any_cons] using h
      simp [hostChildren, hostChildrenAux, tagSelected, processConfig, hany, h]
    · have hany : (["localhost", hostname] : List String).any pat = false := by
        simpa [List.any_cons] using h
      simp [hostChildren, hostChildrenAux, tagSelected, processConfig, hany, h]
  · intro hostname tag ns
    by_cases h : ("localhost" ∈ ns ∨ hostname ∈ ns)
    · simp [hostChildren, hostChildrenAux, tagSelected, processConfig, h]
    · simp [hostChildren, hostChildrenAux, tagSelected, processConfig, h]

/-- Witness for C4's universally quantified part at a concrete input. -/
theorem c4_host_tag_selector_witness :
    hostChildren "web-01" [] = .ok ["*"] ∧
    ∃ suffix, (["*"] : List String) = "*" :: suffix :=
  ⟨rfl, c4_host_tag_selector.1 "web-01" [] ["*"] rfl⟩

/-! ## The metrics aggregator
(driver.py, `BenchmarkCategoryDriver.gather_metrics`) -/

/-- `gathered.update(metrics)` folded over a category's list of metric
mappings: later mappings overwrite earlier ones key by key. -/
def mergeMaps (ms : List Doc) : Doc :=
  ms.foldl (fun acc m => dictUpdate acc m) []

def asDict : Val → Option Doc
  | .dict d => some d
  | _ => none

/-- Merging one category's value, a list of metric mappings, into one flat
mapping.  In the source every element is a mapping (a non-mapping element
would make `dict.update` raise); non-mapping elements are ignored here and
a non-list value collapses to an empty mapping, shapes the driver never
produces. -/
def mergeOne : Val → Val
  | .list ms => .dict (mergeMaps (ms.filterMap asDict))
  | _ => .dict []

/-- The per-category merge of `data['metrics']`
(`data.get('metrics', \x7b\x7d)` in the source: a missing key merges to an
empty mapping). -/
def gatherMetricsVal : Option Val → Val
  | some (.dict cats) => .dict (cats.map (fun p => (p.1, mergeOne p.2)))
  | _ => .dict []

/-- The body of `gather_metrics` for one run (driver.py lines 296-307):
drop `category` and `command`, set `id` to the run directory, and replace
`metrics` with the per-category merged mappings. -/
def gatherRun (runDir : String) (data : Doc) : Doc :=
  let d1 := dpop data "category"
  let d2 := dpop d1 "command"
  let d3 := dset d2 "id" (Val.s runDir)
  dset d3 "metrics" (gatherMetricsVal (dget d3 "metrics"))

/-- `gather_metrics` over a category's run list: each run directory's
checkpoint, in execution order, processed by `gatherRun`. -/
def gatherCategory (runs : List String) (readData : String → Doc) : List Doc :=
  runs.map (fun rd => gatherRun rd (readData rd))

theorem dget_gatherRun_metrics (runDir : String) (data : Doc) :
    dget (gatherRun runDir data) "metrics" =
      some (gatherMetricsVal (dget data "metrics")) := by
  have h3 : dget (dset (dpop (dpop data "category") "command") "id" (Val.s runDir))
      "metrics" = dget data "metrics" := by
    rw [dget_dset_ne _ _ _ _ (by decide), dget_dpop_ne _ _ _ (by decide),
      dget_dpop_ne _ _ _ (by decide)]
  rw [gatherRun, dget_dset_self, h3]

/-- C5: the aggregator removes `category` and `command` from every run's
checkpoint data, sets `id` to the run identity, merges each category's
list of metric mappings into one flat mapping in which a later mapping's
value for a metric name overwrites an earlier one's, processes runs in
execution order, and at the claim's concrete input two mappings
`a = 1` then `a = 2` merge to `a = 2`. -/
theorem c5_gather_metrics_merge :
    (∀ runDir data,
      dget (gatherRun runDir data) "category" = none ∧
      dget (gatherRun runDir data) "command" = none ∧
      dget (gatherRun runDir data) "id" = some (Val.s runDir)) ∧
    (∀ (ms : List Doc) (m : Doc) (k : String), (m.map Prod.fst).Nodup →
      dget (mergeMaps (ms ++ [m])) k =
        match dget m k with
        | some v => some v
        | none => dget (mergeMaps ms) k) ∧
    (∀ runs readData,
      (gatherCategory runs readData).map (fun d => dget d "id") =
        runs.map (fun rd => some (Val.s rd))) ∧
    mergeOne (Val.list [Val.dict [("a", Val.i 1)], Val.dict [("a", Val.i 2)]]) =
      Val.dict [("a", Val.i 2)] := by
  refine ⟨?_, ?_, ?_, rfl⟩
  · intro runDir data
    refine ⟨?_, ?_, ?_⟩
    · rw [gatherRun, dget_dset_ne _ _ _ _ (by decide),
        dget_dset_ne _ _ _ _ (by decide), dget_dpop_ne _ _ _ (by decide),
        dget_dpop_self]
    · rw [gatherRun, dget_dset_ne _ _ _ _ (by decide),
        dget_dset_ne _ _ _ _ (by decide), dget_dpop_self]
    · rw [gatherRun, dget_dset_ne _ _ _ _ (by decide), dget_dset_self]
  · intro ms m k hnd
    rw [mergeMaps, List.foldl_append]
    simpa [mergeMaps] using dget_dictUpdate (mergeMaps ms) m k hnd
  · intro runs readData
    induction runs with
    | nil => rfl
    | cons rd rest ih =>
      have hid : dget (gatherRun rd (readData rd)) "id" = some (Val.s rd) := by
        rw [gatherRun, dget_dset_ne _ _ _ _ (by decide), dget_dset_self]
      simp [gatherCategory] at ih ⊢
      exact ⟨hid, ih⟩

/-- Witness for C5's merge conjunct at a concrete input. -/
theorem c5_gather_metrics_merge_witness :
    (([("a", Val.i 2)] : Doc).map Prod.fst).Nodup ∧
    dget (mergeMaps ([[("a", Val.i 1)]] ++ [[("a", Val.i 2)]])) "a" =
      match dget [("a", Val.i 2)] "a" with
      | some v => some v
      | none => dget (mergeMaps [[("a", Val.i 1)]]) "a" :=
  ⟨by decide,
    c5_gather_metrics_merge.2.1 [[("a", Val.i 1)]] [("a", Val.i 2)] "a" (by decide)⟩

/-! ## Metrics extraction and validation (driver.py, `MetricsDriver`;
api.py, `MetricsExtractor`) -/

/-- The Python types metric values are declared with. -/
inductive MType where
  | tInt
  | tFloat
  | tStr
  | tBool
deriving DecidableEq

/-- A metric value returned by an extractor.  Float values are opaque
tokens carrying an identifying index: no floating-point arithmetic is
modelled, only the `isinstance` type test the driver performs. -/
inductive MVal where
  | vInt (n : Int)
  | vFloat (token : Int)
  | vStr (s : String)
  | vBool (b : Bool)
deriving DecidableEq

/-- Python `isinstance(value, declared_type)`; `bool` is a subclass of
`int`. -/
def instanceOf : MVal → MType → Bool
  | .vInt _, .tInt => true
  | .vBool _, .tInt => true
  | .vBool _, .tBool => true
  | .vFloat _, .tFloat => true
  | .vStr _, .tStr => true
  | _, _ => false

/-- A metric declaration (api.py `Metric`): a unit and a type. -/
structure Metric where
  unit : String
  type : MType
deriving DecidableEq

/-- One metrics extractor, as the driver observes it: its declared metrics
(`extractor.metrics`) and the value mapping its `extract` call returns for
the current run. -/
structure Extractor where
  metrics : List (String × Metric)
  extractResult : List (String × MVal)

/-- The errors `MetricsDriver` raises (spec taxonomy `NoExtractorError`,
`UnexpectedMetricError`, `MetricTypeError`). -/
inductive DriverError where
  | noExtractor (category : Option String)
  | unexpectedMetric (name : String)
  | metricType (name : String)
deriving DecidableEq

/-- `MetricsDriver.check_metrics` (driver.py lines 358-369): each returned
`(name, value)` pair must name a declared metric (`exposed_metrics.get`,
where a present `Metric` named tuple is always truthy) and carry a value
that is an instance of the declared type. -/
def check_metrics (ex : Extractor) : List (String × MVal) → Except DriverError Unit
  | [] => .ok ()
  | (n, v) :: rest =>
    match alookup ex.metrics n with
    | none => .error (.unexpectedMetric n)
    | some m =>
      if instanceOf v m.type then check_metrics ex rest
      else .error (.metricType n)

/-- The run-level checkpoint document as `MetricsDriver` reads and rewrites
it: the run's category and the `metrics` key, a mapping from category to
the list of metric mappings already appended. -/
structure RunReport where
  category : Option String
  metrics : List (String × List (List (String × MVal)))

/-- `metrics.setdefault(cat, []).append(run_metrics)`: append one
extractor's validated mapping to the per-category list. -/
def appendRun (ms : List (String × List (List (String × MVal)))) (c : String)
    (m : List (String × MVal)) : List (String × List (List (String × MVal))) :=
  match ms with
  | [] => [(c, [m])]
  | (c', l) :: rest =>
    if c' = c then (c', l ++ [m]) :: rest else (c', l) :: appendRun rest c m

/-- The extractor loop of `MetricsDriver.__call__` (driver.py lines
351-356): call each extractor, validate its result, and append it to the
report's per-category metric list. -/
def extractLoop (c : String) : List Extractor → RunReport → Except DriverError RunReport
  | [], r => .ok r
  | ex :: rest, r =>
    match check_metrics ex ex.extractResult with
    | .error e => .error e
    | .ok _ =>
      extractLoop c rest { r with metrics := appendRun r.metrics c ex.extractResult }

/-- `MetricsDriver.__call__` (driver.py lines 340-356): fail when the
report's category has no registered extractor (including the `None`
category of a report without one), then run every extractor of the
category in registration order. -/
def metricsDriverCall (allExtractors : List (String × List Extractor))
    (r : RunReport) : Except DriverError RunReport :=
  match r.category with
  | none => .error (.noExtractor none)
  | some c =>
    match alookup allExtractors c with
    | none => .error (.noExtractor (some c))
    | some exs => extractLoop c exs r

theorem alookup_appendRun_self (ms : List (String × List (List (String × MVal))))
    (c : String) (m : List (String × MVal)) :
    alookup (appendRun ms c m) c = some ((alookup ms c).getD [] ++ [m]) := by
  induction ms with
  | nil => simp [appendRun, alookup]
  | cons p rest ih =>
    obtain ⟨c', l⟩ := p
    by_cases h : c' = c
    · simp [appendRun, alookup, h]
    · simp [appendRun, alookup, h, ih]

theorem extractLoop_metrics (c : String) (exs : List Extractor) (r r' : RunReport)
    (h : extractLoop c exs r = .ok r') :
    (alookup r'.metrics c).getD [] =
      (alookup r.metrics c).getD [] ++ exs.map Extractor.extractResult := by
  induction exs generalizing r with
  | nil =>
    simp only [extractLoop, Except.ok.injEq] at h
    subst h
    simp
  | cons ex rest ih =>
    simp only [extractLoop] at h
    cases hchk : check_metrics ex ex.extractResult with
    | error e => rw [hchk] at h; exact absurd h (by simp)
    | ok u =>
      rw [hchk] at h
      have hres := ih _ h
      rw [hres]
      simp [alookup_appendRun_self, List.append_assoc]

/-- C6: metrics extraction fails with `NoExtractorError` when the run's
category has no registered extractor; a returned metric name absent from
the extractor's declarations raises `UnexpectedMetricError`; a value that
is not an instance of the declared type raises `MetricTypeError`;
validation succeeds exactly when every returned pair is declared and
well-typed; and a successful call appends each extractor's mapping to the
category's list in the report, after the mappings already there, so
extractors never overwrite each other. -/
theorem c6_metrics_validation :
    (∀ allExtractors (r : RunReport), r.category = none →
      metricsDriverCall allExtractors r = .error (DriverError.noExtractor none)) ∧
    (∀ allExtractors (r : RunReport) c, r.category = some c →
      alookup allExtractors c = none →
      metricsDriverCall allExtractors r =
        .error (DriverError.noExtractor (some c))) ∧
    (∀ ex ms, check_metrics ex ms = .ok () ↔
      ∀ p ∈ ms, ∃ m, alookup ex.metrics p.1 = some m ∧
        instanceOf p.2 m.type = true) ∧
    (∀ ex n v tl, alookup ex.metrics n = none →
      check_metrics ex ((n, v) :: tl) = .error (DriverError.unexpectedMetric n)) ∧
    (∀ ex n v m tl, alookup ex.metrics n = some m →
      instanceOf v m.type = false →
      check_metrics ex ((n, v) :: tl) = .error (DriverError.metricType n)) ∧
    (∀ allExtractors (r : RunReport) c exs r', r.category = some c →
      alookup allExtractors c = some exs →
      metricsDriverCall allExtractors r = .ok r' →
      (alookup r'.metrics c).getD [] =
        (alookup r.metrics c).getD [] ++ exs.map Extractor.extractResult) := by
  refine ⟨?_, ?_, ?_, ?_, ?_, ?_⟩
  · intro allExtractors r h
    simp [metricsDriverCall, h]
  · intro allExtractors r c h1 h2
    simp [metricsDriverCall, h1, h2]
  · intro ex ms
    induction ms with
    | nil => simp [check_metrics]
    | cons p rest ih =>
      obtain ⟨n, v⟩ := p
      cases hl : alookup ex.metrics n with
      | none =>
        constructor
        · intro h
          exact absurd h (by simp [check_metrics, hl])
        · intro h
          obtain ⟨m, hm, _⟩ := h (n, v) (by simp)
          rw [hl] at hm
          exact absurd hm (by simp)
      | some m =>
        cases hio : instanceOf v m.type with
        | true =>
          constructor
          · intro h p hp
            rcases List.mem_cons.mp hp with heq | hp'
            · subst heq
              exact ⟨m, hl, hio⟩
            · exact (ih.mp (by simpa [check_metrics, hl, hio] using h)) p hp'
          · intro h
            have hrest := fun p hp => h p (List.mem_cons_of_mem _ hp)
            simpa [check_metrics, hl, hio] using ih.mpr hrest
        | false =>
          constructor
          · intro h
            exact absurd h (by simp [check_metrics, hl, hio])
          · intro h
            obtain ⟨m', hm', hio'⟩ := h (n, v) (by simp)
            rw [hl] at hm'
            have hmm : m = m' := by
              injection hm'
            subst hmm
            rw [hio] at hio'
            exact absurd hio' (by simp)
  · intro ex n v tl hl
    simp [check_metrics, hl]
  · intro ex n v m tl h1 h2
    simp [check_metrics, h1, h2]
  · intro allExtractors r c exs r' h1 h2 h3
    rw [metricsDriverCall, h1] at h3
    simp only [h2] at h3
    exact extractLoop_metrics c exs r r' h3

/-- Witness for C6 at a concrete input: one extractor for category `foo`
declaring a float metric `dur` and returning a well-typed value. -/
theorem c6_metrics_validation_witness :
    metricsDriverCall
        [("foo", [⟨[("dur", ⟨"s", MType.tFloat⟩)], [("dur", MVal.vFloat 0)]⟩])]
        ⟨some "foo", []⟩ =
      .ok ⟨some "foo", [("foo", [[("dur", MVal.vFloat 0)]])]⟩ ∧
    (alookup ([("foo", [[("dur", MVal.vFloat 0)]])] :
        List (String × List (List (String × MVal)))) "foo").getD [] =
      (alookup ([] : List (String × List (List (String × MVal)))) "foo").getD []
        ++ ([⟨[("dur", ⟨"s", MType.tFloat⟩)], [("dur", MVal.vFloat 0)]⟩] :
            List Extractor).map Extractor.extractResult := by
  refine ⟨rfl, ?_⟩
  exact c6_metrics_validation.2.2.2.2.2
    [("foo", [⟨[("dur", ⟨"s", MType.tFloat⟩)], [("dur", MVal.vFloat 0)]⟩])]
    ⟨some "foo", []⟩ "foo"
    [⟨[("dur", ⟨"s", MType.tFloat⟩)], [("dur", MVal.vFloat 0)]⟩]
    ⟨some "foo", [("foo", [[("dur", MVal.vFloat 0)]])]⟩ rfl rfl rfl

/-! ## Output file paths (api.py, `MetricsExtractor.stdout` / `stderr`) -/

namespace MetricsExtractor

/-- `MetricsExtractor.stdout` (api.py lines 62-71). -/
def stdout (outdir : String) : String :=
  osPathJoin outdir "stdout.txt"

/-- `MetricsExtractor.stderr` (api.py lines 73-82); the file name in the
source reads `sterrr.txt`. -/
def stderr (outdir : String) : String :=
  osPathJoin outdir "sterrr.txt"

end MetricsExtractor

/-- The file name `ExecutionDriver.__call__` opens in the run directory for
the command's standard output (driver.py line 384). -/
def executionStdoutName : String := "stdout.txt"

/-- The file name `ExecutionDriver.__call__` opens in the run directory for
the command's standard error (driver.py line 385). -/
def executionStderrName : String := "stderr.txt"

/-- C10 (code divergence): the `stdout` helper returns exactly the path of
the file the execution unit writes standard output to, for every output
directory; but the `stderr` helper returns a `sterrr.txt` path, which is
not the `stderr.txt` file the execution unit writes standard error to. -/
theorem c10_stdout_matches_stderr_typo :
    (∀ outdir, MetricsExtractor.stdout outdir =
      osPathJoin outdir executionStdoutName) ∧
    MetricsExtractor.stderr "/camp/run" = "/camp/run/sterrr.txt" ∧
    MetricsExtractor.stderr "/camp/run" ≠
      osPathJoin "/camp/run" executionStderrName := by
  refine ⟨fun outdir => rfl, rfl, ?_⟩
  decide

end HPCBench
